import Mathlib

/-!
Shallow embedding of `tracker.py` (product price tracker).

Texts are modelled as `List Char`; prices as exact rationals `ℚ`
(the decimal value denoted by the parsed token); page fetching and
the wall clock are external oracles collected in `Env`; a Python
`ZeroDivisionError` is modelled by `Except.error "ZeroDivisionError"`.
-/

namespace Tracker

/-- One price observation: `{"date": ..., "price": ...}` appended by
`_add_price_entry`. -/
structure Obs where
  date : String
  price : ℚ
deriving DecidableEq, Repr

/-- A tracked product record `{"name": ..., "url": ..., "prices": [...]}`. -/
structure Product where
  name : String
  url : String
  prices : List Obs
deriving DecidableEq, Repr

/-- The store `self.products`: an insertion-ordered mapping from product
name to product record (Python dict preserves insertion order). -/
abbrev Store := List (String × Product)

/-- Default entry used only as the out-of-range default of `List.getD`. -/
def dfltObs : Obs := { date := "", price := 0 }

/-- Default store entry used only as the out-of-range default of `List.getD`. -/
def dfltEntry : String × Product := ("", { name := "", url := "", prices := [] })

/-- External world of `tracker.py`: `page url` is the fetched+parsed page
(`None` on any network error), modelled as a map from a CSS selector to the
list of texts of the matching elements (`soup.select`); `times k` is the
string produced by the `k`-th `datetime.now().isoformat()` call of one
operation. -/
structure Env where
  page : String → Option (String → List (List Char))
  times : Nat → String

/-- Value of a digit string read left to right (`"123"` ↦ `123`). -/
def digitsToNat (ds : List Char) : Nat :=
  ds.foldl (fun a c => 10 * a + (c.toNat - 48)) 0

/-- Exact decimal value of the matched token `ds "." fs`: models Python
`float(match.group(1))` (exact decimal semantics; the token is all digits
with at most one point, so `ValueError` is unreachable). -/
def decValue (ds fs : List Char) : ℚ :=
  (digitsToNat ds : ℚ) + (digitsToNat fs : ℚ) / (10 : ℚ) ^ fs.length

/-- Smallest non-negative decimal value at which CPython `float()` (IEEE-754
binary64, round to nearest, ties to even) overflows to `inf`: the midpoint
`2^1024 - 2^970` between the largest finite double `2^1024 - 2^971` and
`2^1024`. Every parsed token whose exact value (`decValue`) is at least
this bound is stored as the non-finite `inf` by the program, while smaller
values convert to finite doubles. -/
def floatOverflow : ℚ := 2 ^ 1024 - 2 ^ 970

/-- Python `str.strip()`: remove leading and trailing whitespace. -/
def pythonStrip (l : List Char) : List Char :=
  ((l.dropWhile Char.isWhitespace).reverse.dropWhile Char.isWhitespace).reverse

/-- Fractional digits of the `\.?\d*` tail of the pattern: a maximal digit
run if the remainder starts with a point, empty otherwise. -/
def fracPart (r : List Char) : List Char :=
  match r with
  | d :: r2 => if d = '.' then r2.takeWhile Char.isDigit else []
  | [] => []

/-- Leftmost match of the pattern `\d+\.?\d*` (as in
`re.search(r'(\d+\.?\d*)', text)`), returned as the pair
(integer digits, fractional digits): scan to the first digit, take the
maximal digit run, then an optional point followed by a maximal digit run. -/
def findNumToken : List Char → Option (List Char × List Char)
  | [] => none
  | c :: rest =>
    if c.isDigit then
      some ((c :: rest).takeWhile Char.isDigit,
            fracPart ((c :: rest).dropWhile Char.isDigit))
    else findNumToken rest

/-- Model of `_extract_price_from_text`: strip the currency symbols `$`, `£`, `€`,
then commas, then whitespace, then parse the first number token (the
`float` call cannot raise on a token of this shape). -/
def extract_price_from_text (text : List Char) : Option ℚ :=
  match findNumToken (pythonStrip ((text.filter
      (fun c => !(c == '$' || c == '£' || c == '€'))).filter (fun c => !(c == ',')))) with
  | some (ds, fs) => some (decValue ds fs)
  | none => none

/-- Selector list of `_scrape_amazon` (tried in this order). -/
def amazonSelectors : List String :=
  ["span.a-price-whole", "span.a-offscreen", "span#priceblock_ourprice",
   "span#priceblock_dealprice", "span.a-color-price"]

/-- Selector list of `_scrape_generic` (tried in this order). -/
def genericSelectors : List String :=
  ["[class*=\"price\"]", "[id*=\"price\"]", "[class*=\"Price\"]",
   "span.price", "div.price", "p.price"]

/-- Result of one selector rule: the first successfully extracted price
over the matched elements in order (element texts are stripped by
`get_text().strip()` before extraction). -/
def ruleResult (soup : String → List (List Char)) (sel : String) : Option ℚ :=
  (soup sel).findSome? (fun t => extract_price_from_text (pythonStrip t))

/-- Shared loop shape of `_scrape_amazon` and `_scrape_generic`: for each
selector in order, return the first rule result that parses. -/
def scrapeBySelectors (soup : String → List (List Char)) : List String → Option ℚ
  | [] => none
  | sel :: rest =>
    match ruleResult soup sel with
    | some p => some p
    | none => scrapeBySelectors soup rest

/-- Model of `_scrape_amazon`. -/
def scrape_amazon (soup : String → List (List Char)) : Option ℚ :=
  scrapeBySelectors soup amazonSelectors

/-- Model of `_scrape_generic`. -/
def scrape_generic (soup : String → List (List Char)) : Option ℚ :=
  scrapeBySelectors soup genericSelectors

/-- Bool test that `pat` begins the second list. -/
def leadsWith : List Char → List Char → Bool
  | [], _ => true
  | _ :: _, [] => false
  | a :: as, b :: bs => a == b && leadsWith as bs

/-- Bool test that `pat` occurs contiguously inside the second list
(Python `pat in s` on strings). -/
def containsSub (pat : List Char) : List Char → Bool
  | [] => leadsWith pat []
  | c :: rest => leadsWith pat (c :: rest) || containsSub pat rest

/-- Model of `_scrape_price`: fetch the page (`None` models any request/parse
failure) and dispatch on whether the lowercased URL contains "amazon". -/
def scrape_price (env : Env) (url : String) : Option ℚ :=
  match env.page url with
  | none => none
  | some soup =>
    if containsSub "amazon".data (url.data.map Char.toLower) then scrape_amazon soup
    else scrape_generic soup

/-- Model of `_add_price_entry`: append a `{date, price}` record to the named
product's price list (`d` is the `datetime.now().isoformat()` string). -/
def add_price_entry (store : Store) (name d : String) (price : ℚ) : Store :=
  store.map (fun e =>
    if e.1 == name then (e.1, { e.2 with prices := e.2.prices ++ [{ date := d, price := price }] })
    else e)

/-- Model of `add_product`: duplicate name fails without mutation or save; otherwise
one scrape attempt, product created with empty price list, initial
observation appended when the scrape succeeded, then `_save_data`.
Result is (new store, returned Bool, whether a save was performed). -/
def add_product (env : Env) (store : Store) (url name : String) : Store × Bool × Bool :=
  if store.any (fun e => e.1 == name) then (store, false, false)
  else
    match scrape_price env url with
    | some p =>
      (add_price_entry (store ++ [(name, { name := name, url := url, prices := [] })])
        name (env.times 0) p, true, true)
    | none => (store ++ [(name, { name := name, url := url, prices := [] })], true, true)

/-- Python division on floats as used here: raises `ZeroDivisionError` on a
zero denominator, modelled as an `Except.error`. -/
def pydiv (a b : ℚ) : Except String ℚ :=
  if b = 0 then Except.error "ZeroDivisionError" else Except.ok (a / b)

/-- The reported price delta of `check_all` (tracker.py line 215): after the
new observation is appended, when the product now has more than one
observation (i.e. `old` — its pre-append history — is nonempty), the code
computes `(price - old_price) / old_price * 100` against the previous
observation `old_price = prices[-2]` with no guard, so a previous price of
0 raises `ZeroDivisionError`. The percentage is only printed; `ok` carries
it (or `none` when there was no previous observation) solely to mark the
non-raising outcome. -/
def deltaReport (price : ℚ) (old : List Obs) : Except String (Option ℚ) :=
  if old.isEmpty then Except.ok none
  else
    match pydiv (price - (old.getLastD dfltObs).price) ((old.getLastD dfltObs).price) with
    | Except.error e => Except.error e
    | Except.ok r => Except.ok (some (r * 100))

/-- Loop body of `check_all` over the items of the store, in order; `k`
counts the `datetime.now()` calls made so far in this run. On a successful
scrape the observation is appended and the delta report runs; its
`ZeroDivisionError` aborts the whole batch (nothing is returned and the
remaining products are never scraped). Returns the updated items and the
`updated` counter when no error occurs. -/
def checkLoop (env : Env) (k : Nat) : Store → Except String (Store × Nat)
  | [] => Except.ok ([], 0)
  | (name, p) :: rest =>
    match scrape_price env p.url with
    | some price =>
      match deltaReport price p.prices with
      | Except.error e => Except.error e
      | Except.ok _ =>
        match checkLoop env (k + 1) rest with
        | Except.error e => Except.error e
        | Except.ok r =>
          Except.ok ((name, { p with
              prices := p.prices ++ [{ date := env.times k, price := price }] }) :: r.1,
            r.2 + 1)
    | none =>
      match checkLoop env k rest with
      | Except.error e => Except.error e
      | Except.ok r => Except.ok ((name, p) :: r.1, r.2)

/-- Model of `check_all`: early return 0 without saving on an empty store;
otherwise scrape every product, append on success, and save once at the
end — unless the loop raised, in which case nothing is returned and
`_save_data` is never reached. A normal result is (new store, returned
count, whether `_save_data` ran). -/
def check_all (env : Env) (store : Store) : Except String (Store × Nat × Bool) :=
  if store.isEmpty then Except.ok (store, 0, false)
  else
    match checkLoop env 0 store with
    | Except.error e => Except.error e
    | Except.ok r => Except.ok (r.1, r.2, true)

/-- Count of adjacent index pairs `i-1, i` of the list whose values satisfy
`cmp` (the generator sums in `_calculate_trend`). -/
def countPairsBy (cmp : ℚ → ℚ → Bool) : List ℚ → Nat
  | a :: b :: rest => (if cmp a b then 1 else 0) + countPairsBy cmp (b :: rest)
  | _ => 0

/-- Model of `_calculate_trend` applied to the price values of the observations. -/
def calculate_trend (prices : List ℚ) : String :=
  if prices.length < 2 then "Insufficient data"
  else
    let window := min 3 prices.length
    let recent := prices.drop (prices.length - window)
    let increases := countPairsBy (fun a b => decide (a < b)) recent
    let decreases := countPairsBy (fun a b => decide (b < a)) recent
    if decreases < increases then "Rising"
    else if increases < decreases then "Falling"
    else "Stable"

/-- Numeric results printed by `_show_product_stats`. -/
structure Stats where
  first : ℚ
  latest : ℚ
  minPrice : ℚ
  maxPrice : ℚ
  avg : ℚ
  totalChange : ℚ
  totalChangePct : ℚ
  spread : ℚ
  spreadPct : ℚ
deriving DecidableEq, Repr

/-- Numeric core of `_show_product_stats` on the price values: `.ok none`
models the early return when there is no price data. The overall-change
percentage is guarded by `first_price != 0` and the volatility percentage
by `avg_price != 0` as in the source (volatility itself, a square root of
a total expression, cannot raise and is omitted from the record); the
spread percentage `(max_price - min_price) / min_price * 100` is computed
with no guard, so a zero minimum raises `ZeroDivisionError`. -/
def show_product_stats (prices : List ℚ) : Except String (Option Stats) :=
  if prices.isEmpty then Except.ok none
  else
    let first := prices.headD 0
    let latest := prices.getLastD 0
    let minP := prices.foldl min (prices.headD 0)
    let maxP := prices.foldl max (prices.headD 0)
    let avg := prices.sum / (prices.length : ℚ)
    let totalChange := latest - first
    let totalChangePct := if first = 0 then 0 else totalChange / first * 100
    match pydiv (maxP - minP) minP with
    | Except.error e => Except.error e
    | Except.ok r =>
      Except.ok (some { first := first, latest := latest, minPrice := minP,
                        maxPrice := maxP, avg := avg, totalChange := totalChange,
                        totalChangePct := totalChangePct, spread := maxP - minP,
                        spreadPct := r * 100 })

/-- One element of the `alerts` list built by `check_alerts`. -/
structure Alert where
  name : String
  previous : ℚ
  current : ℚ
  drop : ℚ
deriving DecidableEq, Repr

/-- Python `product["prices"][-1]["price"]`. -/
def latestPrice (p : Product) : ℚ := (p.prices.getLastD dfltObs).price

/-- Python `product["prices"][-2]["price"]` (used only when the list has at
least two entries). -/
def prevPrice (p : Product) : ℚ := (p.prices.getD (p.prices.length - 2) dfltObs).price

/-- Loop of `check_alerts` over the store items in order: skip products
with fewer than two observations, compute the percentage drop (an
unguarded division by the second-latest price), and collect the products
whose drop is at least the threshold. -/
def alertsLoop (threshold : ℚ) : Store → Except String (List Alert)
  | [] => Except.ok []
  | (name, p) :: rest =>
    if p.prices.length < 2 then alertsLoop threshold rest
    else
      match pydiv (prevPrice p - latestPrice p) (prevPrice p) with
      | Except.error e => Except.error e
      | Except.ok r =>
        if threshold ≤ r * 100 then
          match alertsLoop threshold rest with
          | Except.error e => Except.error e
          | Except.ok l =>
            Except.ok ({ name := name, previous := prevPrice p,
                         current := latestPrice p, drop := r * 100 } :: l)
        else alertsLoop threshold rest

/-- Model of `check_alerts`: the list of alert records built by the loop (the empty
store early-returns before the loop, with no alerts built). -/
def check_alerts (store : Store) (threshold : ℚ) : Except String (List Alert) :=
  alertsLoop threshold store

/-- The drop formula of the spec, written with total field division; it
agrees with the code's computed drop whenever the second-latest price is
nonzero. -/
def specDrop (p : Product) : ℚ := (prevPrice p - latestPrice p) / prevPrice p * 100

/-- The store invariant of the spec: every stored observation has a
non-negative price. -/
def storeNonneg (store : Store) : Prop :=
  ∀ e ∈ store, ∀ o ∈ e.2.prices, 0 ≤ o.price

/-- Environment whose every fetch fails. -/
def envNone : Env := { page := fun _ => none, times := fun _ => "t" }

/-- Concrete page used by witnesses: only the selectors `span.price` and
`p.price` match anything. -/
def soupW : String → List (List Char) :=
  fun sel =>
    if sel == "span.price" then ["$5".data]
    else if sel == "p.price" then ["$9.99".data]
    else []

/-- Environment whose every fetch returns `soupW`. -/
def envSome : Env := { page := fun _ => some soupW, times := fun _ => "t" }

/-- Product named `nm` with one observation per listed price. -/
def productW (nm : String) (qs : List ℚ) : Product :=
  { name := nm, url := "u", prices := qs.map (fun q => { date := "d", price := q }) }

/-- Store of the C8 examples: last two prices 100 then 85 (drop 15), and
100 then 95 (drop 5). -/
def alertStoreW : Store :=
  [("a", productW "a" [100, 85]), ("b", productW "b" [100, 95])]

/-- Store with a product whose second-latest price is 0: `check_alerts`
divides by it. -/
def alertBugStore : Store := [("z", productW "z" [0, 5])]

/-! Helper lemmas about the text-cleaning pipeline. -/

theorem takeWhile_append_all {p : Char → Bool} {l r : List Char}
    (h : ∀ c ∈ l, p c = true) : (l ++ r).takeWhile p = l ++ r.takeWhile p := by
  induction l with
  | nil => simp
  | cons a t ih =>
    have ha : p a = true := h a (List.mem_cons_self a t)
    simp only [List.cons_append, List.takeWhile_cons_of_pos ha, List.cons.injEq, true_and]
    exact ih (fun c hc => h c (List.mem_cons_of_mem a hc))

theorem dropWhile_append_all {p : Char → Bool} {l r : List Char}
    (h : ∀ c ∈ l, p c = true) : (l ++ r).dropWhile p = r.dropWhile p := by
  induction l with
  | nil => simp
  | cons a t ih =>
    have ha : p a = true := h a (List.mem_cons_self a t)
    simp only [List.cons_append, List.dropWhile_cons_of_pos ha]
    exact ih (fun c hc => h c (List.mem_cons_of_mem a hc))

theorem takeWhile_all {p : Char → Bool} {l : List Char}
    (h : ∀ c ∈ l, p c = true) : l.takeWhile p = l := by
  have := takeWhile_append_all (r := []) h
  simpa using this

theorem dropWhile_all {p : Char → Bool} {l : List Char}
    (h : ∀ c ∈ l, p c = true) : l.dropWhile p = [] := by
  have := dropWhile_append_all (r := []) h
  simpa using this

theorem dropWhile_not {p : Char → Bool} {l : List Char}
    (h : ∀ c ∈ l, p c = false) : l.dropWhile p = l := by
  cases l with
  | nil => rfl
  | cons a t =>
    exact List.dropWhile_cons_of_neg (by simp [h a (List.mem_cons_self a t)])

theorem pythonStrip_eq_self {l : List Char}
    (h : ∀ c ∈ l, c.isWhitespace = false) : pythonStrip l = l := by
  unfold pythonStrip
  rw [dropWhile_not h, dropWhile_not (fun c hc => h c (List.mem_reverse.mp hc)),
    List.reverse_reverse]

theorem pythonStrip_subset {l : List Char} : ∀ c ∈ pythonStrip l, c ∈ l := by
  intro c hc
  unfold pythonStrip at hc
  rw [List.mem_reverse] at hc
  have h1 := (List.dropWhile_sublist _).subset hc
  rw [List.mem_reverse] at h1
  exact (List.dropWhile_sublist _).subset h1

theorem digit_not_ws {c : Char} (h : c.isDigit = true) : c.isWhitespace = false := by
  simp only [Char.isDigit, decide_eq_true_eq, Bool.and_eq_true] at h
  simp only [Char.isWhitespace, Bool.or_eq_false_iff, decide_eq_false_iff_not]
  refine ⟨⟨⟨?_, ?_⟩, ?_⟩, ?_⟩ <;> rintro rfl <;> simp_all

theorem fracPart_cons (d : Char) (r2 : List Char) :
    fracPart (d :: r2) = if d = '.' then r2.takeWhile Char.isDigit else [] := rfl

theorem findNumToken_cons (c : Char) (rest : List Char) :
    findNumToken (c :: rest) =
      if c.isDigit then
        some ((c :: rest).takeWhile Char.isDigit,
              fracPart ((c :: rest).dropWhile Char.isDigit))
      else findNumToken rest := rfl

theorem findNumToken_none {t : List Char} (h : ∀ c ∈ t, c.isDigit = false) :
    findNumToken t = none := by
  induction t with
  | nil => rfl
  | cons c r ih =>
    have hc : c.isDigit = false := h c (List.mem_cons_self c r)
    rw [findNumToken_cons, if_neg (by simp [hc])]
    exact ih (fun x hx => h x (List.mem_cons_of_mem c hx))

theorem findNumToken_digits_dot {ds fs : List Char} (h1 : ds ≠ [])
    (h2 : ∀ c ∈ ds, c.isDigit = true) (h3 : ∀ c ∈ fs, c.isDigit = true) :
    findNumToken (ds ++ '.' :: fs) = some (ds, fs) := by
  cases ds with
  | nil => exact absurd rfl h1
  | cons d dt =>
    have hd : d.isDigit = true := h2 d (List.mem_cons_self d dt)
    have hdrop : (d :: (dt ++ '.' :: fs)).dropWhile Char.isDigit = '.' :: fs := by
      have h0 := dropWhile_append_all (r := '.' :: fs) h2
      rw [List.cons_append] at h0
      rw [h0]
      exact List.dropWhile_cons_of_neg (by simp)
    have htake : (d :: (dt ++ '.' :: fs)).takeWhile Char.isDigit = d :: dt := by
      have h0 := takeWhile_append_all (r := '.' :: fs) h2
      rw [List.cons_append] at h0
      rw [h0, List.takeWhile_cons_of_neg (by simp), List.append_nil]
    rw [List.cons_append, findNumToken_cons, if_pos hd, hdrop, htake, fracPart_cons,
      if_pos rfl, takeWhile_all h3]

theorem findNumToken_digits {ds : List Char} (h1 : ds ≠ [])
    (h2 : ∀ c ∈ ds, c.isDigit = true) :
    findNumToken ds = some (ds, []) := by
  cases ds with
  | nil => exact absurd rfl h1
  | cons d dt =>
    have hd : d.isDigit = true := h2 d (List.mem_cons_self d dt)
    have hdrop : (d :: dt).dropWhile Char.isDigit = [] := dropWhile_all h2
    have htake : (d :: dt).takeWhile Char.isDigit = d :: dt := takeWhile_all h2
    rw [findNumToken_cons, if_pos hd, hdrop, htake]
    rfl

theorem cur_keep {c : Char} (h : c.isDigit = true ∨ c = ',' ∨ c = '.') :
    (!(c == '$' || c == '£' || c == '€')) = true := by
  rcases h with hd | rfl | rfl
  · rcases eq_or_ne c '$' with rfl | h1
    · exact absurd hd (by decide)
    rcases eq_or_ne c '£' with rfl | h2
    · exact absurd hd (by decide)
    rcases eq_or_ne c '€' with rfl | h3
    · exact absurd hd (by decide)
    simp [h1, h2, h3]
  · decide
  · decide

theorem comma_keep {c : Char} (h : c.isDigit = true ∨ c = '.') :
    (!(c == ',')) = true := by
  rcases h with hd | rfl
  · rcases eq_or_ne c ',' with rfl | h1
    · exact absurd hd (by decide)
    simp [h1]
  · decide

theorem filter_comma_digit {body : List Char}
    (h : ∀ c ∈ body, c.isDigit = true ∨ c = ',') :
    body.filter (fun c => !(c == ',')) = body.filter Char.isDigit := by
  induction body with
  | nil => rfl
  | cons c t ih =>
    have ht := ih (fun x hx => h x (List.mem_cons_of_mem c hx))
    rcases h c (List.mem_cons_self c t) with hd | rfl
    · have hne : (c == ',') = false := by
        rcases eq_or_ne c ',' with rfl | h1
        · exact absurd hd (by decide)
        simp [h1]
      simp [List.filter_cons, hne, hd, ht]
    · simp [List.filter_cons, ht]

/-- Cleaning `sym ++ body ++ s` (currency symbol, digits with commas,
optional dot-and-digits suffix) leaves exactly the digits of `body`
followed by `s`. -/
theorem cleaned_numeral (sym body s : List Char)
    (hsym : sym = [] ∨ sym = ['$'] ∨ sym = ['£'] ∨ sym = ['€'])
    (hbody : ∀ c ∈ body, c.isDigit = true ∨ c = ',')
    (hs : ∀ c ∈ s, c.isDigit = true ∨ c = '.') :
    pythonStrip (((sym ++ (body ++ s)).filter
        (fun c => !(c == '$' || c == '£' || c == '€'))).filter (fun c => !(c == ',')))
      = body.filter Char.isDigit ++ s := by
  have hsymf : sym.filter (fun c => !(c == '$' || c == '£' || c == '€')) = [] := by
    rcases hsym with rfl | rfl | rfl | rfl <;> rfl
  have hbodyf : body.filter (fun c => !(c == '$' || c == '£' || c == '€')) = body :=
    List.filter_eq_self.mpr (fun c hc => cur_keep ((hbody c hc).imp id Or.inl))
  have hsf : s.filter (fun c => !(c == '$' || c == '£' || c == '€')) = s :=
    List.filter_eq_self.mpr (fun c hc => cur_keep ((hs c hc).imp id Or.inr))
  have hsf2 : s.filter (fun c => !(c == ',')) = s :=
    List.filter_eq_self.mpr (fun c hc => comma_keep (hs c hc))
  simp only [List.filter_append, hsymf, hbodyf, hsf, hsf2, List.nil_append,
    filter_comma_digit hbody]
  apply pythonStrip_eq_self
  intro c hc
  rcases List.mem_append.mp hc with hcl | hcr
  · exact digit_not_ws (List.of_mem_filter hcl)
  · rcases hs c hcr with hd | rfl
    · exact digit_not_ws hd
    · decide

/-! C1 -/

/-- C1: for every text of the shape currency-symbol (optional) ++ decimal
digits with comma separators ++ optional fractional part, price extraction
returns the decimal value of the numeral with separators removed; and for
every text containing no digits it returns absent. -/
theorem c1_price_extraction (sym body fs : List Char)
    (hsym : sym = [] ∨ sym = ['$'] ∨ sym = ['£'] ∨ sym = ['€'])
    (hbody : ∀ c ∈ body, c.isDigit = true ∨ c = ',')
    (hdig : body.any Char.isDigit = true)
    (hfs : ∀ c ∈ fs, c.isDigit = true) :
    extract_price_from_text (sym ++ (body ++ '.' :: fs))
        = some (decValue (body.filter Char.isDigit) fs)
    ∧ extract_price_from_text (sym ++ body)
        = some (decValue (body.filter Char.isDigit) [])
    ∧ ∀ t : List Char, (∀ c ∈ t, c.isDigit = false) → extract_price_from_text t = none := by
  have hBd : ∀ c ∈ body.filter Char.isDigit, c.isDigit = true :=
    fun c hc => List.of_mem_filter hc
  have hBne : body.filter Char.isDigit ≠ [] := by
    intro hnil
    rcases List.any_eq_true.mp hdig with ⟨c, hc, hcd⟩
    exact (List.filter_eq_nil_iff.mp hnil c hc) hcd
  refine ⟨?_, ?_, ?_⟩
  · unfold extract_price_from_text
    rw [cleaned_numeral sym body ('.' :: fs) hsym hbody
      (by intro c hc
          rcases List.mem_cons.mp hc with rfl | hc
          · exact Or.inr rfl
          · exact Or.inl (hfs c hc))]
    rw [findNumToken_digits_dot hBne hBd hfs]
  · unfold extract_price_from_text
    have h0 := cleaned_numeral sym body [] hsym hbody (by intro c hc; cases hc)
    rw [List.append_nil] at h0
    rw [h0, List.append_nil, findNumToken_digits hBne hBd]
  · intro t ht
    unfold extract_price_from_text
    have hnd : ∀ c ∈ pythonStrip ((t.filter
        (fun c => !(c == '$' || c == '£' || c == '€'))).filter (fun c => !(c == ','))),
        c.isDigit = false := by
      intro c hc
      exact ht c (List.mem_of_mem_filter (List.mem_of_mem_filter (pythonStrip_subset c hc)))
    rw [findNumToken_none hnd]

/-- Witness for C1 at the spec's example "$1,234.56" (whose value is
1234.56 = 30864/25). -/
theorem c1_price_extraction_witness :
    extract_price_from_text "$1,234.56".data
        = some (decValue (['1', ',', '2', '3', '4'].filter Char.isDigit) ['5', '6'])
    ∧ decValue (['1', ',', '2', '3', '4'].filter Char.isDigit) ['5', '6'] = 30864 / 25 := by
  constructor
  · exact (c1_price_extraction ['$'] ['1', ',', '2', '3', '4'] ['5', '6']
      (Or.inr (Or.inl rfl)) (by decide) (by decide) (by decide)).1
  · have h2 : digitsToNat (['1', ',', '2', '3', '4'].filter Char.isDigit) = 1234 := rfl
    have h3 : digitsToNat ['5', '6'] = 56 := rfl
    have h4 : (['5', '6'] : List Char).length = 2 := rfl
    simp only [decValue, h2, h3, h4]
    norm_num

/-! C2 -/

theorem countPairsBy_eq_zip (cmp : ℚ → ℚ → Bool) (l : List ℚ) :
    countPairsBy cmp l = (l.zip l.tail).countP (fun p => cmp p.1 p.2) := by
  induction l with
  | nil => rfl
  | cons a t ih =>
    cases t with
    | nil => rfl
    | cons b r =>
      simp only [countPairsBy, ih, List.tail_cons, List.zip_cons_cons, List.countP_cons]
      cases h : cmp a b <;> simp [Nat.add_comm]

/-- C2: trend is "Insufficient data" below 2 observations; otherwise, on
the window of the last min(3, length) observations, it compares the number
of strictly-increasing adjacent pairs with the number of
strictly-decreasing ones ("Rising" / "Falling" / "Stable"); and the two
worked examples of the spec. -/
theorem c2_trend (prices : List ℚ) :
    (prices.length < 2 → calculate_trend prices = "Insufficient data")
    ∧ (2 ≤ prices.length →
        calculate_trend prices =
          (let recent := prices.drop (prices.length - min 3 prices.length)
           let inc := (recent.zip recent.tail).countP (fun p => decide (p.1 < p.2))
           let dec := (recent.zip recent.tail).countP (fun p => decide (p.2 < p.1))
           if dec < inc then "Rising"
           else if inc < dec then "Falling"
           else "Stable"))
    ∧ calculate_trend [10, 9, 8] = "Falling"
    ∧ calculate_trend [10, 11, 9, 11] = "Stable" := by
  refine ⟨?_, ?_, by decide, by decide⟩
  · intro h
    simp only [calculate_trend, if_pos h]
  · intro h
    have h2 : ¬ prices.length < 2 := by omega
    simp only [calculate_trend, if_neg h2, countPairsBy_eq_zip]

/-- Witness for C2 on a singleton history and on a rising 3-point history. -/
theorem c2_trend_witness :
    calculate_trend [(5 : ℚ)] = "Insufficient data"
    ∧ calculate_trend [(1 : ℚ), 2, 3] = "Rising" := by
  constructor
  · exact (c2_trend [5]).1 (by norm_num)
  · have h := (c2_trend [1, 2, 3]).2.1 (by norm_num)
    rw [h]
    decide

/-! C3 -/

theorem deltaReport_ok (price : ℚ) (old : List Obs)
    (h : old ≠ [] → (old.getLastD dfltObs).price ≠ 0) :
    ∃ v, deltaReport price old = Except.ok v := by
  unfold deltaReport
  by_cases hemp : old.isEmpty = true
  · rw [if_pos hemp]
    exact ⟨none, rfl⟩
  · rw [if_neg hemp]
    have hne : old ≠ [] := fun hnil => hemp (by simp [hnil])
    unfold pydiv
    rw [if_neg (h hne)]
    exact ⟨_, rfl⟩

theorem checkLoop_spec (env : Env) :
    ∀ (store : Store) (k : Nat),
      (∀ e ∈ store, (scrape_price env e.2.url).isSome = true →
          e.2.prices ≠ [] → (e.2.prices.getLastD dfltObs).price ≠ 0) →
      ∃ s : Store,
        checkLoop env k store
            = Except.ok (s, store.countP (fun e => (scrape_price env e.2.url).isSome))
        ∧ s.length = store.length
        ∧ ∀ i, i < store.length →
            ((∀ pr, scrape_price env (store.getD i dfltEntry).2.url = some pr →
                ∃ d, s.getD i dfltEntry =
                  ((store.getD i dfltEntry).1,
                   { (store.getD i dfltEntry).2 with
                     prices := (store.getD i dfltEntry).2.prices
                       ++ [{ date := d, price := pr }] }))
             ∧ (scrape_price env (store.getD i dfltEntry).2.url = none →
                 s.getD i dfltEntry = store.getD i dfltEntry)) := by
  intro store
  induction store with
  | nil => exact fun k _ => ⟨[], rfl, rfl, fun i hi => absurd hi (by simp)⟩
  | cons x rest ih =>
    intro k h
    obtain ⟨name, p⟩ := x
    have hrest := fun k' => ih k' (fun e he => h e (List.mem_cons_of_mem _ he))
    cases hs : scrape_price env p.url with
    | some price =>
      obtain ⟨s, hok, hlen, hpt⟩ := hrest (k + 1)
      have hold : p.prices ≠ [] → (p.prices.getLastD dfltObs).price ≠ 0 :=
        h (name, p) (List.mem_cons_self _ _) (by simp [hs])
      obtain ⟨v, hdv⟩ := deltaReport_ok price p.prices hold
      have hcnt : ((name, p) :: rest).countP (fun e => (scrape_price env e.2.url).isSome)
          = rest.countP (fun e => (scrape_price env e.2.url).isSome) + 1 := by
        rw [List.countP_cons]
        simp [hs]
      refine ⟨(name, { p with prices := p.prices
          ++ [{ date := env.times k, price := price }] }) :: s, ?_, ?_, ?_⟩
      · rw [hcnt]
        simp only [checkLoop, hs, hdv, hok]
      · simp [hlen]
      · intro i hi
        cases i with
        | zero =>
          constructor
          · intro pr hpr
            refine ⟨env.times k, ?_⟩
            simp only [List.getD_cons_zero] at hpr ⊢
            rw [hs] at hpr
            injection hpr with hpr
            rw [hpr]
          · intro h0
            simp only [List.getD_cons_zero] at h0
            rw [hs] at h0
            cases h0
        | succ j =>
          have hj : j < rest.length := by simpa using hi
          simpa only [List.getD_cons_succ] using hpt j hj
    | none =>
      obtain ⟨s, hok, hlen, hpt⟩ := hrest k
      have hcnt : ((name, p) :: rest).countP (fun e => (scrape_price env e.2.url).isSome)
          = rest.countP (fun e => (scrape_price env e.2.url).isSome) := by
        rw [List.countP_cons]
        simp [hs]
      refine ⟨(name, p) :: s, ?_, ?_, ?_⟩
      · rw [hcnt]
        simp only [checkLoop, hs, hok]
      · simp [hlen]
      · intro i hi
        cases i with
        | zero =>
          constructor
          · intro pr hpr
            simp only [List.getD_cons_zero] at hpr
            rw [hs] at hpr
            cases hpr
          · intro _
            simp only [List.getD_cons_zero]
        | succ j =>
          have hj : j < rest.length := by simpa using hi
          simpa only [List.getD_cons_succ] using hpt j hj

/-- C3 counterexample: a tracked product whose only prior observation has
price 0 and whose scrape succeeds makes the real `check_all` divide by
that previous price in the reported delta (tracker.py line 215): the batch
aborts with `ZeroDivisionError`, no count is returned and nothing is
saved, falsifying the claim on that store. -/
theorem c3_check_all_counterexample :
    check_all envSome [("z", productW "z" [0])] = Except.error "ZeroDivisionError" := rfl

/-- C3 amended: when every product whose scrape succeeds has either an
empty history or a nonzero last recorded price (so the unguarded delta
division cannot raise), `check_all` returns normally with the number of
products whose scrape succeeded, keeps the store the same length, appends
exactly one observation (with the scraped price) to each product whose
scrape succeeded, and leaves every other product entry identical. -/
theorem c3_check_all (env : Env) (store : Store)
    (h : ∀ e ∈ store, (scrape_price env e.2.url).isSome = true →
        e.2.prices ≠ [] → (e.2.prices.getLastD dfltObs).price ≠ 0) :
    ∃ (s : Store) (saved : Bool),
      check_all env store
          = Except.ok (s, store.countP (fun e => (scrape_price env e.2.url).isSome), saved)
      ∧ s.length = store.length
      ∧ ∀ i, i < store.length →
          ((∀ pr, scrape_price env (store.getD i dfltEntry).2.url = some pr →
              ∃ d, s.getD i dfltEntry =
                ((store.getD i dfltEntry).1,
                 { (store.getD i dfltEntry).2 with
                   prices := (store.getD i dfltEntry).2.prices
                     ++ [{ date := d, price := pr }] }))
           ∧ (scrape_price env (store.getD i dfltEntry).2.url = none →
               s.getD i dfltEntry = store.getD i dfltEntry)) := by
  cases store with
  | nil => exact ⟨[], false, rfl, rfl, fun i hi => absurd hi (by simp)⟩
  | cons x rest =>
    obtain ⟨s, hok, hlen, hpt⟩ := checkLoop_spec env (x :: rest) 0 h
    refine ⟨s, true, ?_, hlen, hpt⟩
    unfold check_all
    rw [if_neg (by simp), hok]

/-- Witness for C3: with a failing scrape the run completes, returning the
zero success count with the store length preserved. -/
theorem c3_check_all_witness :
    ∃ (s : Store) (saved : Bool),
      check_all envNone [("a", productW "a" [])]
          = Except.ok (s, [("a", productW "a" [])].countP
              (fun e => (scrape_price envNone e.2.url).isSome), saved)
      ∧ s.length = 1 := by
  obtain ⟨s, saved, h1, h2, -⟩ := c3_check_all envNone [("a", productW "a" [])] (by decide)
  exact ⟨s, saved, h1, by simpa using h2⟩

/-! C5 -/

/-- C5: ordered first-match-wins rule traversal. If every rule before `selA`
yields nothing and `selA`'s fragments yield `v`, the scrape returns `v`,
whatever the later rules (including any later matching rule `B` in `rest`)
would yield; `_scrape_generic` and `_scrape_amazon` are instances of this
traversal over their fixed selector lists. -/
theorem c5_rule_precedence (soup : String → List (List Char)) (pre rest : List String)
    (selA : String) (v : ℚ)
    (hpre : ∀ s ∈ pre, ruleResult soup s = none)
    (hA : ruleResult soup selA = some v) :
    scrapeBySelectors soup (pre ++ selA :: rest) = some v
    ∧ scrape_generic soup = scrapeBySelectors soup genericSelectors
    ∧ scrape_amazon soup = scrapeBySelectors soup amazonSelectors := by
  refine ⟨?_, rfl, rfl⟩
  induction pre with
  | nil =>
    rw [List.nil_append]
    unfold scrapeBySelectors
    rw [hA]
  | cons s t ih =>
    have hs := hpre s (List.mem_cons_self s t)
    rw [List.cons_append]
    unfold scrapeBySelectors
    rw [hs]
    exact ih (fun x hx => hpre x (List.mem_cons_of_mem s hx))

/-- Witness for C5: with `soupW`, the first three generic selectors match
nothing, `span.price` (rule A) yields $5, and the later `p.price` (rule B)
would yield $9.99; the scrape returns 5. -/
theorem c5_rule_precedence_witness :
    scrapeBySelectors soupW (["[class*=\"price\"]", "[id*=\"price\"]", "[class*=\"Price\"]"]
        ++ "span.price" :: ["div.price", "p.price"]) = some (decValue ['5'] [])
    ∧ decValue ['5'] [] = 5
    ∧ ruleResult soupW "p.price" = some (decValue ['9'] ['9', '9']) := by
  refine ⟨?_, ?_, rfl⟩
  · exact (c5_rule_precedence soupW ["[class*=\"price\"]", "[id*=\"price\"]", "[class*=\"Price\"]"]
      ["div.price", "p.price"] "span.price" (decValue ['5'] [])
      (by intro s hs; fin_cases hs <;> rfl) rfl).1
  · have h2 : digitsToNat ['5'] = 5 := rfl
    have h3 : digitsToNat [] = 0 := rfl
    simp only [decValue, h2, h3]
    norm_num

/-! C6 -/

/-- C6: adding a product whose name is already tracked returns failure and
leaves the store unchanged, with no save performed. -/
theorem c6_duplicate_add (env : Env) (store : Store) (url name : String)
    (h : store.any (fun e => e.1 == name) = true) :
    add_product env store url name = (store, false, false) := by
  unfold add_product
  rw [if_pos h]

/-- Witness for C6 on a one-product store. -/
theorem c6_duplicate_add_witness :
    add_product envNone [("a", productW "a" [])] "u2" "a"
      = ([("a", productW "a" [])], false, false) :=
  c6_duplicate_add envNone [("a", productW "a" [])] "u2" "a" (by decide)

/-! C7 -/

theorem map_if_not_found (name d : String) (p : ℚ) :
    ∀ (store : Store), (∀ e ∈ store, (e.1 == name) = false) →
      store.map (fun e =>
        if e.1 == name then
          (e.1, { e.2 with prices := e.2.prices ++ [{ date := d, price := p }] })
        else e) = store := by
  intro store
  induction store with
  | nil => exact fun _ => rfl
  | cons x t ih =>
    intro h
    have hx := h x (List.mem_cons_self x t)
    simp only [List.map_cons, hx, Bool.false_eq_true, if_false, List.cons.injEq, true_and]
    exact ih (fun e he => h e (List.mem_cons_of_mem x he))

theorem add_product_new_eq (env : Env) (store : Store) (url name : String)
    (h : store.any (fun e => e.1 == name) = false) :
    add_product env store url name =
      (store ++ [(name, { name := name,
                          url := url,
                          prices := match scrape_price env url with
                                    | some p => [{ date := env.times 0, price := p }]
                                    | none => [] })], true, true) := by
  have hmem : ∀ e ∈ store, (e.1 == name) = false := by
    intro e he
    by_contra hne
    have htrue : store.any (fun e => e.1 == name) = true :=
      List.any_eq_true.mpr ⟨e, he, by simpa using hne⟩
    rw [h] at htrue
    cases htrue
  unfold add_product
  rw [if_neg (by simp [h])]
  cases hs : scrape_price env url with
  | none => rfl
  | some p =>
    simp only [add_price_entry, List.map_append]
    rw [map_if_not_found name (env.times 0) p store hmem]
    simp

/-- C7: adding a fresh name always succeeds and saves; the product is
created at the end of the store with the given URL, and its observation
list is a single entry with the scraped price when the one scrape attempt
succeeded, empty when it failed. -/
theorem c7_add_new (env : Env) (store : Store) (url name : String)
    (h : store.any (fun e => e.1 == name) = false) :
    add_product env store url name =
      (store ++ [(name, { name := name,
                          url := url,
                          prices := match scrape_price env url with
                                    | some p => [{ date := env.times 0, price := p }]
                                    | none => [] })], true, true) :=
  add_product_new_eq env store url name h

/-- Witness for C7 on the empty store with a failing scrape. -/
theorem c7_add_new_witness :
    add_product envNone [] "u" "n"
      = ([("n", { name := "n", url := "u", prices := [] })], true, true) :=
  c7_add_new envNone [] "u" "n" (by decide)

/-! C8 -/

/-- C8 counterexample: on a store whose product has two observations with
second-latest price 0, `check_alerts` raises a division-by-zero error
instead of returning an alert list that includes or excludes the product. -/
theorem c8_alerts_counterexample :
    check_alerts alertBugStore 10 = Except.error "ZeroDivisionError" := rfl

/-- C8 amended: for every threshold (no clamping) and every store in which
each product with at least 2 observations has a nonzero second-latest
price, the alert list contains exactly the products with at least 2
observations whose drop `(previous - latest) / previous * 100` is at least
the threshold, in store order and with that drop value. -/
theorem c8_alerts_amended (store : Store) (t : ℚ)
    (h : ∀ e ∈ store, 2 ≤ e.2.prices.length → prevPrice e.2 ≠ 0) :
    check_alerts store t = Except.ok (store.filterMap (fun e =>
      if 2 ≤ e.2.prices.length ∧ t ≤ specDrop e.2 then
        some { name := e.1, previous := prevPrice e.2, current := latestPrice e.2,
               drop := specDrop e.2 }
      else none)) := by
  unfold check_alerts
  induction store with
  | nil => rfl
  | cons e rest ih =>
    obtain ⟨name, p⟩ := e
    have hrest := ih (fun x hx hl => h x (List.mem_cons_of_mem _ hx) hl)
    by_cases hlen : p.prices.length < 2
    · unfold alertsLoop
      rw [if_pos hlen, hrest]
      simp only [List.filterMap_cons]
      rw [if_neg (fun hc => absurd hc.1 (by omega))]
    · have hlen2 : 2 ≤ p.prices.length := by omega
      have hp : prevPrice p ≠ 0 := h (name, p) (List.mem_cons_self _ _) hlen2
      unfold alertsLoop
      rw [if_neg hlen]
      simp only [pydiv, if_neg hp]
      by_cases hdrop : t ≤ (prevPrice p - latestPrice p) / prevPrice p * 100
      · rw [if_pos hdrop, hrest]
        simp only [List.filterMap_cons, specDrop]
        rw [if_pos ⟨hlen2, hdrop⟩]
      · rw [if_neg hdrop, hrest]
        simp only [List.filterMap_cons, specDrop]
        rw [if_neg (fun hc => hdrop hc.2)]

/-- Witness for C8: on the two example products (100 then 85, and 100 then
95), the threshold-10 alert list is exactly the first product with drop
15. -/
theorem c8_alerts_amended_witness :
    check_alerts alertStoreW 10 = Except.ok (alertStoreW.filterMap (fun e =>
      if 2 ≤ e.2.prices.length ∧ (10 : ℚ) ≤ specDrop e.2 then
        some { name := e.1, previous := prevPrice e.2, current := latestPrice e.2,
               drop := specDrop e.2 }
      else none))
    ∧ alertStoreW.filterMap (fun e =>
        if 2 ≤ e.2.prices.length ∧ (10 : ℚ) ≤ specDrop e.2 then
          some ({ name := e.1, previous := prevPrice e.2, current := latestPrice e.2,
                  drop := specDrop e.2 } : Alert)
        else none)
      = [{ name := "a", previous := 100, current := 85, drop := 15 }] := by
  constructor
  · exact c8_alerts_amended alertStoreW 10 (by decide)
  · have hpa : prevPrice (productW "a" [100, 85]) = 100 := rfl
    have hla : latestPrice (productW "a" [100, 85]) = 85 := rfl
    have hpb : prevPrice (productW "b" [100, 95]) = 100 := rfl
    have hlb : latestPrice (productW "b" [100, 95]) = 95 := rfl
    have ha : specDrop (productW "a" [100, 85]) = 15 := by
      simp only [specDrop, hpa, hla]
      norm_num
    have hb : specDrop (productW "b" [100, 95]) = 5 := by
      simp only [specDrop, hpb, hlb]
      norm_num
    simp only [alertStoreW, List.filterMap_cons, List.filterMap_nil, ha, hb, hpa, hla]
    norm_num [show (productW "a" [100, 85]).prices.length = 2 from rfl]

/-! C4 -/

/-- C4: the spread percentage is divided by the minimum price with no
guard, so a history whose minimum is 0 (observations [0, 40]) raises
`ZeroDivisionError` instead of skipping the percentage; on [100, 80, 120]
the stats are min 80, max 120, mean 100, overall change +20 (+20%),
spread 40 (50% of the minimum). -/
theorem c4_stats_spread :
    show_product_stats [0, 40] = Except.error "ZeroDivisionError"
    ∧ show_product_stats [100, 80, 120] =
        Except.ok (some { first := 100, latest := 120, minPrice := 80, maxPrice := 120,
                          avg := 100, totalChange := 20, totalChangePct := 20,
                          spread := 40, spreadPct := 50 }) := by
  constructor
  · rfl
  · norm_num [show_product_stats, pydiv, min_def, max_def]

/-! C9 -/

theorem extract_nonneg {t : List Char} {q : ℚ}
    (h : extract_price_from_text t = some q) : 0 ≤ q := by
  unfold extract_price_from_text at h
  cases hf : findNumToken (pythonStrip ((t.filter
      (fun c => !(c == '$' || c == '£' || c == '€'))).filter (fun c => !(c == ',')))) with
  | none =>
    rw [hf] at h
    cases h
  | some pr =>
    obtain ⟨ds, fs⟩ := pr
    rw [hf] at h
    have h2 : some (decValue ds fs) = some q := h
    injection h2 with h2
    rw [← h2]
    unfold decValue
    positivity

theorem ruleResult_nonneg {soup : String → List (List Char)} {sel : String} {q : ℚ}
    (h : ruleResult soup sel = some q) : 0 ≤ q := by
  unfold ruleResult at h
  obtain ⟨a, _, ha⟩ := List.exists_of_findSome?_eq_some h
  exact extract_nonneg ha

theorem scrapeBySelectors_nonneg {soup : String → List (List Char)} :
    ∀ {sels : List String} {q : ℚ}, scrapeBySelectors soup sels = some q → 0 ≤ q := by
  intro sels
  induction sels with
  | nil => intro q h; cases h
  | cons s rest ih =>
    intro q h
    unfold scrapeBySelectors at h
    cases hr : ruleResult soup s with
    | some v =>
      rw [hr] at h
      have h2 : some v = some q := h
      injection h2 with h2
      rw [← h2]
      exact ruleResult_nonneg hr
    | none =>
      rw [hr] at h
      exact ih h

theorem scrape_price_nonneg {env : Env} {url : String} {q : ℚ}
    (h : scrape_price env url = some q) : 0 ≤ q := by
  unfold scrape_price at h
  cases hp : env.page url with
  | none =>
    rw [hp] at h
    cases h
  | some soup =>
    rw [hp] at h
    have h2 : (if containsSub "amazon".data (url.data.map Char.toLower) then
        scrape_amazon soup else scrape_generic soup) = some q := h
    by_cases ha : containsSub "amazon".data (url.data.map Char.toLower) = true
    · rw [if_pos ha] at h2
      exact scrapeBySelectors_nonneg h2
    · rw [if_neg ha] at h2
      exact scrapeBySelectors_nonneg h2

theorem add_product_nonneg {env : Env} {store : Store} {url name : String}
    (hs : storeNonneg store) : storeNonneg (add_product env store url name).1 := by
  by_cases hdup : store.any (fun e => e.1 == name) = true
  · unfold add_product
    rw [if_pos hdup]
    exact hs
  · rw [add_product_new_eq env store url name (Bool.eq_false_iff.mpr hdup)]
    intro e he o ho
    rcases List.mem_append.mp he with hl | hr
    · exact hs e hl o ho
    · have he2 : e = (name, { name := name,
                              url := url,
                              prices := match scrape_price env url with
                                        | some p => [{ date := env.times 0, price := p }]
                                        | none => [] }) := by simpa using hr
      subst he2
      cases hsc : scrape_price env url with
      | none =>
        rw [hsc] at ho
        cases ho
      | some p =>
        rw [hsc] at ho
        have ho2 : o = { date := env.times 0, price := p } := by simpa using ho
        rw [ho2]
        exact scrape_price_nonneg hsc

theorem checkLoop_nonneg {env : Env} :
    ∀ {store : Store} {k : Nat} {r : Store × Nat},
      storeNonneg store → checkLoop env k store = Except.ok r → storeNonneg r.1 := by
  intro store
  induction store with
  | nil =>
    intro k r _ hr
    have h1 : (([], 0) : Store × Nat) = r := by injection hr
    rw [← h1]
    intro e he
    cases he
  | cons x rest ih =>
    intro k r h hr
    obtain ⟨name, p⟩ := x
    have hrest : storeNonneg rest := fun e he o ho => h e (List.mem_cons_of_mem _ he) o ho
    cases hsc : scrape_price env p.url with
    | some price =>
      simp only [checkLoop, hsc] at hr
      cases hd : deltaReport price p.prices with
      | error e2 =>
        rw [hd] at hr
        have h2 : (Except.error e2 : Except String (Store × Nat)) = Except.ok r := hr
        cases h2
      | ok v =>
        rw [hd] at hr
        cases hcl : checkLoop env (k + 1) rest with
        | error e2 =>
          rw [hcl] at hr
          have h2 : (Except.error e2 : Except String (Store × Nat)) = Except.ok r := hr
          cases h2
        | ok r2 =>
          rw [hcl] at hr
          have h2 : Except.ok (((name, { p with prices := p.prices
              ++ [{ date := env.times k, price := price }] }) :: r2.1, r2.2 + 1) :
                Store × Nat) = Except.ok r := hr
          injection h2 with h2
          rw [← h2]
          intro e he o ho
          rcases List.mem_cons.mp he with rfl | htail
          · rcases List.mem_append.mp ho with hold | hnew
            · exact h (name, p) (List.mem_cons_self _ _) o hold
            · have ho2 : o = { date := env.times k, price := price } := by simpa using hnew
              rw [ho2]
              exact scrape_price_nonneg hsc
          · exact ih hrest hcl e htail o ho
    | none =>
      simp only [checkLoop, hsc] at hr
      cases hcl : checkLoop env k rest with
      | error e2 =>
        rw [hcl] at hr
        have h2 : (Except.error e2 : Except String (Store × Nat)) = Except.ok r := hr
        cases h2
      | ok r2 =>
        rw [hcl] at hr
        have h2 : Except.ok (((name, p) :: r2.1, r2.2) : Store × Nat) = Except.ok r := hr
        injection h2 with h2
        rw [← h2]
        intro e he o ho
        rcases List.mem_cons.mp he with rfl | htail
        · exact h (name, p) (List.mem_cons_self _ _) o ho
        · exact ih hrest hcl e htail o ho

theorem check_all_nonneg {env : Env} {store : Store} {r : Store × Nat × Bool}
    (hs : storeNonneg store) (hr : check_all env store = Except.ok r) :
    storeNonneg r.1 := by
  cases store with
  | nil =>
    have h2 : Except.ok ((([] : Store), 0, false) : Store × Nat × Bool) = Except.ok r := hr
    injection h2 with h2
    rw [← h2]
    intro e he
    cases he
  | cons x rest =>
    have hr2 : (match checkLoop env 0 (x :: rest) with
        | Except.error e => Except.error e
        | Except.ok p => Except.ok (p.1, p.2, true)) = Except.ok r := hr
    cases hcl : checkLoop env 0 (x :: rest) with
    | error e2 =>
      rw [hcl] at hr2
      have h3 : (Except.error e2 : Except String (Store × Nat × Bool)) = Except.ok r := hr2
      cases h3
    | ok p =>
      rw [hcl] at hr2
      have h3 : Except.ok ((p.1, p.2, true) : Store × Nat × Bool) = Except.ok r := hr2
      injection h3 with h3
      rw [← h3]
      exact checkLoop_nonneg hs hcl

set_option maxRecDepth 8000 in
/-- C9 counterexample: extraction accepts arbitrarily long digit runs, and
on a 309-digit numeral it produces the value 10^309 - 1, which is at or
above the binary64 overflow bound `floatOverflow`; CPython `float()`
therefore stores the non-finite `inf` for this text, refuting the
finiteness half of the claim. -/
theorem c9_finiteness_counterexample :
    extract_price_from_text (List.replicate 309 '9')
        = some (decValue (List.replicate 309 '9') [])
    ∧ floatOverflow ≤ decValue (List.replicate 309 '9') [] := by
  have hd : ∀ c ∈ List.replicate 309 '9', c.isDigit = true := by
    intro c hc
    rw [List.eq_of_mem_replicate hc]
    decide
  constructor
  · have hne : List.replicate 309 '9' ≠ [] := by
      intro h0
      have hlen := congrArg List.length h0
      simp at hlen
    unfold extract_price_from_text
    have h1 : (List.replicate 309 '9').filter
        (fun c => !(c == '$' || c == '£' || c == '€')) = List.replicate 309 '9' :=
      List.filter_eq_self.mpr (fun c hc => cur_keep (Or.inl (hd c hc)))
    have h2 : (List.replicate 309 '9').filter (fun c => !(c == ','))
        = List.replicate 309 '9' :=
      List.filter_eq_self.mpr (fun c hc => comma_keep (Or.inl (hd c hc)))
    rw [h1, h2, pythonStrip_eq_self (fun c hc => digit_not_ws (hd c hc)),
      findNumToken_digits hne hd]
  · have hNat : digitsToNat (List.replicate 309 '9') + 1 = 10 ^ 309 := by decide
    have h2 : (2 : ℕ) ^ 1024 + 1 ≤ 10 ^ 309 := by decide
    have hle : (2 : ℕ) ^ 1024 ≤ digitsToNat (List.replicate 309 '9') := by omega
    have hleQ : (2 : ℚ) ^ 1024 ≤ (digitsToNat (List.replicate 309 '9') : ℚ) := by
      have h3 := (Nat.cast_le (α := ℚ)).mpr hle
      rw [Nat.cast_pow, Nat.cast_ofNat] at h3
      exact h3
    have h4 : (0 : ℚ) ≤ 2 ^ 970 := by positivity
    unfold decValue floatOverflow
    rw [show digitsToNat ([] : List Char) = 0 from rfl]
    simp only [List.length_nil, pow_zero, Nat.cast_zero, zero_div, div_one, add_zero]
    linarith

/-- C9 amended: extraction only ever returns non-negative values, and both
store mutators (`add_product`, and `check_all` on every run that returns
normally) preserve the invariant that every stored observation has a
non-negative price. Finiteness is not guaranteed: a numeral whose decimal
value reaches `floatOverflow` is stored as `inf` by the program. -/
theorem c9_nonneg_invariant :
    (∀ (t : List Char) (q : ℚ), extract_price_from_text t = some q → 0 ≤ q)
    ∧ (∀ (env : Env) (store : Store) (url name : String),
        storeNonneg store → storeNonneg (add_product env store url name).1)
    ∧ (∀ (env : Env) (store : Store) (r : Store × Nat × Bool),
        storeNonneg store → check_all env store = Except.ok r → storeNonneg r.1) :=
  ⟨fun _ _ h => extract_nonneg h,
   fun _ _ _ _ hs => add_product_nonneg hs,
   fun _ _ _ hs hr => check_all_nonneg hs hr⟩

/-- Witness for C9: a concrete extraction value is non-negative, and the
stores produced by a concrete `add_product` and a concrete completed
`check_all` run satisfy the invariant. -/
theorem c9_nonneg_invariant_witness :
    0 ≤ decValue ['5'] []
    ∧ storeNonneg (add_product envNone [] "u" "n").1
    ∧ storeNonneg ([("a", productW "a" [])] : Store) := by
  have hs0 : storeNonneg [("a", productW "a" [])] := by
    intro e he o ho
    rw [List.mem_singleton] at he
    subst he
    simp [productW] at ho
  refine ⟨?_, ?_, ?_⟩
  · exact c9_nonneg_invariant.1 "5".data (decValue ['5'] []) rfl
  · exact c9_nonneg_invariant.2.1 envNone [] "u" "n"
      (fun e he => absurd he (List.not_mem_nil e))
  · exact c9_nonneg_invariant.2.2 envNone [("a", productW "a" [])]
      ([("a", productW "a" [])], 0, true) hs0 rfl

/-! C10 -/

/-- C10 counterexample: a non-empty run can end without saving — with a
previous price of 0 the delta division aborts `check_all` before
`_save_data` is reached, so the save is not performed by every non-empty
run. -/
theorem c10_save_counterexample :
    check_all envSome [("w", productW "w" [3, 0])] = Except.error "ZeroDivisionError" := rfl

/-- C10 amended: `check_all` on the empty store returns 0 via the
early-return path and performs no save, and every non-empty run that
returns normally (rather than aborting on the unguarded delta division)
performs the final save. -/
theorem c10_empty_check_all :
    (∀ env : Env, check_all env ([] : Store) = Except.ok ([], 0, false))
    ∧ (∀ (env : Env) (store : Store), store ≠ [] →
        ∀ r : Store × Nat × Bool, check_all env store = Except.ok r → r.2.2 = true) := by
  constructor
  · intro env
    rfl
  · intro env store h r hr
    cases store with
    | nil => exact absurd rfl h
    | cons x rest =>
      have hr2 : (match checkLoop env 0 (x :: rest) with
          | Except.error e => Except.error e
          | Except.ok p => Except.ok (p.1, p.2, true)) = Except.ok r := hr
      cases hcl : checkLoop env 0 (x :: rest) with
      | error e2 =>
        rw [hcl] at hr2
        have h3 : (Except.error e2 : Except String (Store × Nat × Bool)) = Except.ok r := hr2
        cases h3
      | ok p =>
        rw [hcl] at hr2
        have h3 : Except.ok ((p.1, p.2, true) : Store × Nat × Bool) = Except.ok r := hr2
        injection h3 with h3
        rw [← h3]

/-- Witness for C10: the empty-store equation, and a completing non-empty
run whose returned save flag is true. -/
theorem c10_empty_check_all_witness :
    check_all envNone ([] : Store) = Except.ok ([], 0, false)
    ∧ (([("a", productW "a" [])], 0, true) : Store × Nat × Bool).2.2 = true :=
  ⟨c10_empty_check_all.1 envNone,
   c10_empty_check_all.2 envNone [("a", productW "a" [])] (List.cons_ne_nil _ _)
     ([("a", productW "a" [])], 0, true) rfl⟩

end Tracker
